import Mathlib

/-!
# ficsit-cli `smr upload`: chunked version upload

A shallow embedding of `uploadCmd.RunE` (`cmd/smr/upload.go`) and the properties of its
chunk arithmetic, its multipart envelope and its finalize / poll sequence.

Conventions of the embedding.

* `int64` values are integers; every `int64` operation of the source that can leave the
  range is wrapped with `wrapInt64`.  Go's `int` is taken to be 64 bits wide.
* `float64` values are modelled exactly.  The only floating point computation of the
  command is `math.Ceil(float64(size) / float64(chunkSize))` on non-negative integers, so a
  binary64 value is either an integer (`float64OfInt64`) or a quotient of two such integers
  rounded to 53 significant bits, ties to even (`float64Div`).
* Everything outside the process (flags, file system, HTTP, the generated GraphQL client,
  the cancellation context) is a field of `World`; a run of the command is the list of
  effects it performs together with how it ends.
* A multipart body is the list of the parts written to the `multipart.Writer`, and a
  marshalled document is the value given to `json.Marshal`: the wire formats of the Go
  standard library are not modelled.
-/

namespace Smr

/-! ## Machine arithmetic -/

/-- Two's complement wrap of an integer into the `int64` range. -/
def wrapInt64 (z : Int) : Int :=
  (z + 2 ^ 63) % 2 ^ 64 - 2 ^ 63

/-- Position of the highest set bit, by repeated halving (`fuel` bounds the halvings). -/
def log2Aux : Nat → Nat → Nat
  | 0, _ => 0
  | fuel + 1, n => if n < 2 then 0 else log2Aux fuel (n / 2) + 1

/-- Floor of the binary logarithm (`0` for `0`). -/
def ilog2 (n : Nat) : Nat :=
  log2Aux n n

/-- Value of `float64(n)` for a non-negative integer `n`: exact below `2^53`, otherwise the
nearest multiple of `2^e` with a 53 bit significand, ties to the even significand. -/
def float64OfInt64 (n : Nat) : Nat :=
  if n < 2 ^ 53 then n
  else
    let e := ilog2 n - 52
    let m := n / 2 ^ e
    let r := n % 2 ^ e
    if 2 ^ e < 2 * r ∨ (2 * r = 2 ^ e ∧ m % 2 = 1) then (m + 1) * 2 ^ e else m * 2 ^ e

/-- A non-negative binary64 quotient: the value `mant * 2^up / 2^down`. -/
structure Float64 where
  mant : Nat
  up : Nat
  down : Nat
deriving DecidableEq, Repr

/-- Value of the binary64 division `x / y` of two positive integer-valued floats.  The
scale `down` is chosen so that the exact quotient times `2^down / 2^up` lies in
`[2^52, 2^53)`; the significand is then rounded to the nearest integer, ties to even. -/
def float64Div (x y : Nat) : Float64 :=
  if x = 0 then ⟨0, 0, 0⟩
  else
    let up := ilog2 x
    let d := y * 2 ^ up
    let down := if x * 2 ^ (ilog2 y + 52) < 2 ^ 52 * d then ilog2 y + 53 else ilog2 y + 52
    let n := x * 2 ^ down
    let m := n / d
    let r := n % d
    if d < 2 * r ∨ (2 * r = d ∧ m % 2 = 1) then ⟨m + 1, up, down⟩ else ⟨m, up, down⟩

/-- The integer `math.Ceil(q)`. -/
def mathCeil (q : Float64) : Nat :=
  (q.mant * 2 ^ q.up + 2 ^ q.down - 1) / 2 ^ q.down

/-! ## Chunk arithmetic (`upload.go` lines 86-104) -/

/-- `chunkCount := int(math.Ceil(float64(stat.Size()) / float64(chunkSize)))`.  Both operands
are non-negative where the source evaluates this: a file size, and a chunk size that passed
the `chunkSize < 1000000` check.  The ceiling is below `2^63`, so `int(...)` is exact. -/
def chunkCount (size chunkSize : Int) : Nat :=
  mathCeil (float64Div (float64OfInt64 size.toNat) (float64OfInt64 chunkSize.toNat))

/-- `offset := int64(i) * chunkSize`. -/
def chunkOffset (i : Nat) (chunkSize : Int) : Int :=
  wrapInt64 ((i : Int) * chunkSize)

/-- `bufferSize := chunkSize; if offset+chunkSize > stat.Size() { bufferSize = stat.Size() - offset }`. -/
def bufferSize (size chunkSize offset : Int) : Int :=
  if size < wrapInt64 (offset + chunkSize) then wrapInt64 (size - offset) else chunkSize

/-- The exact integer ceiling of `size / chunkSize`, the chunk count the specification names. -/
def ceilDiv (size chunkSize : Int) : Int :=
  (size + chunkSize - 1) / chunkSize


/-! ## Data handed to and received from the outside -/

/-- The stability enumeration of the generated client (`ficsit.VersionStabilities`). -/
inductive VersionStabilities
  | alpha
  | beta
  | release
deriving DecidableEq, Repr

/-- Values given to `json.Marshal`: `nil`, an `int`, a `string`, a `[]string` or a
`map[string]interface{}`. -/
inductive Json
  | null
  | number (n : Int)
  | string (s : String)
  | array (items : List Json)
  | object (fields : List (String × Json))

/-- Member `key` of a JSON object. -/
def Json.field (key : String) : Json → Option Json
  | .object fields => (fields.find? (fun kv => kv.1 == key)).map (fun kv => kv.2)
  | _ => none

/-- A byte buffer: `make([]byte, size)` after `f.Read`. -/
structure Chunk where
  size : Nat
  data : Nat → UInt8

/-- What is written into one part of the multipart body. -/
inductive PartContent
  | document (doc : Json)
  | octets (chunk : Chunk)

/-- One part of the multipart body: `CreateFormField name` has no file name,
`CreateFormFile name fileName` has one. -/
structure FormPart where
  name : String
  fileName : Option String
  content : PartContent

/-- The HTTP request of one chunk. -/
structure Request where
  method : String
  url : String
  contentType : String
  authorization : String
  body : List FormPart

/-- `os.FileInfo` as far as the command reads it. -/
structure FileInfo where
  size : Int
  isDir : Bool

/-- The state returned by `ficsit.CheckVersionUploadState`: the id of the version record
(empty while there is none) and the auto-approval flag. -/
structure UploadState where
  versionId : String
  autoApproved : Bool
deriving DecidableEq, Repr

/-- Everything the command reads from outside the process.  Results indexed by a number are
the result of the call made in that iteration of the loop concerned. -/
structure World where
  /-- The value of `viper.GetInt64("chunk-size")`. -/
  chunkSize : Int
  /-- The value of `viper.GetString("stability")`. -/
  stability : String
  apiBase : String
  graphqlApi : String
  apiKey : String
  /-- The argument `args[0]`. -/
  modID : String
  /-- The argument `args[1]`. -/
  filePath : String
  /-- The arguments `args[2:]`. -/
  changelogArgs : List String
  stat : Except String FileInfo
  initCLI : Except String Unit
  createVersion : Except String String
  openFile : Nat → Except String Unit
  seek : Nat → Except String Unit
  readFile : Nat → Except String (Nat → UInt8)
  /-- The function `filepath.Base`. -/
  base : String → String
  /-- The boundary chosen by `multipart.NewWriter` in each iteration. -/
  boundary : Nat → String
  /-- Whether `http.NewRequest` accepts the configured URL. -/
  newRequestOk : Bool
  clientDo : Nat → Except String Unit
  finalizeCreateVersion : Except String Bool
  checkVersionUploadState : Nat → Except String (Option UploadState)
  /-- Whether `cmd.Context()` is already cancelled after that many effects of the run. -/
  ctxDone : Nat → Bool

/-- Effects of a run, in the order the command performs them. -/
inductive Event
  | log (msg : String)
  | stat (path : String)
  | initCLI
  | createVersion (modID : String)
  | openFile (path : String)
  | seek (offset : Int)
  | readFile (length : Int)
  | clientDo (req : Request)
  | finalizeCreateVersion (modID versionID changelog : String) (stability : VersionStabilities)
  | sleep (seconds : Nat)
  | checkVersionUploadState (modID versionID : String)

/-- How a run ends: `return nil`, `return err`, a runtime panic, or still running when the
fuel of the model is used up. -/
inductive Outcome
  | ok
  | error (msg : String)
  | panic (msg : String)
  | running
deriving DecidableEq, Repr

deriving instance DecidableEq for Except

/-- A run: its effects and its end. -/
structure Run where
  trace : List Event
  outcome : Outcome

/-- The effects `evs`, then the run `r`. -/
def Run.after (evs : List Event) (r : Run) : Run :=
  ⟨evs ++ r.trace, r.outcome⟩

/-- The run `r`, continued by `k` when `r` ended without error. -/
def Run.seq (r k : Run) : Run :=
  match r.outcome with
  | .ok => ⟨r.trace ++ k.trace, k.outcome⟩
  | _ => r

/-- The context of a command started by `Execute` (`root.go` line 92): `RootCmd.Execute()`
gives the command `context.Background()`, which is never cancelled. -/
def backgroundContext : Nat → Bool :=
  fun _ => false

/-- A call of the generated client with `cmd.Context()`: it fails without reaching the
server when the context is already cancelled. -/
def withContext {α : Type} (w : World) (t : Nat) (result : Except String α) : Except String α :=
  if w.ctxDone t then .error "context canceled" else result

/-! ## The command (`upload.go` lines 36-215) -/

/-- The mutation text `uploadVersionPartGQL`. -/
def uploadVersionPartGQL : String :=
  "mutation UploadVersionPart($modId: ModID!, $versionId: VersionID!, $part: Int!, $file: Upload!) \x7b\n  uploadVersionPart(modId: $modId, versionId: $versionId, part: $part, file: $file)\n\x7d"

/-- Lines 37-52: the chunk size check and the stability switch. -/
def validate (chunkSize : Int) (stability : String) : Except String VersionStabilities :=
  if chunkSize < 1000000 then .error "chunk size cannot be smaller than 1MB"
  else if stability = "alpha" then .ok .alpha
  else if stability = "beta" then .ok .beta
  else if stability = "release" then .ok .release
  else .error ("invalid version stability: " ++ stability)

/-- Lines 111-119: the value marshalled into `operationBody`. -/
def operationBody (modID versionID : String) (i : Nat) : Json :=
  .object [("query", .string uploadVersionPartGQL),
    ("variables", .object [("modId", .string modID), ("versionId", .string versionID),
      ("part", .number ((i : Int) + 1)), ("file", .null)])]

/-- Lines 124-126: the value marshalled into `mapBody`. -/
def mapBody : Json :=
  .object [("0", .array [.string "variables.file"])]

/-- Lines 131-163: the parts written to the multipart writer, in order. -/
def multipartBody (modID versionID : String) (i : Nat) (fileName : String) (chunk : Chunk) :
    List FormPart :=
  [⟨"operations", none, .document (operationBody modID versionID i)⟩,
   ⟨"map", none, .document mapBody⟩,
   ⟨"0", some fileName, .octets chunk⟩]

/-- Lines 165-167: the request of chunk `i`. -/
def chunkRequest (w : World) (versionID : String) (i : Nat) (chunk : Chunk) : Request :=
  { method := "POST"
    url := w.apiBase ++ w.graphqlApi
    contentType := "multipart/form-data; boundary=" ++ w.boundary i
    authorization := w.apiKey
    body := multipartBody w.modID versionID i (w.base w.filePath) chunk }

/-- Lines 88-172: one iteration of the chunk loop.  `json.Marshal` of these values and the
writes into the in-memory buffer cannot fail, so their error returns are not modelled;
`make` panics on a negative length and is taken to succeed otherwise; a request that
`http.NewRequest` rejected is nil, and setting its header panics. -/
def uploadChunk (w : World) (versionID : String) (size : Int) (i : Nat) : Run :=
  match w.openFile i with
  | .error e => ⟨[.log "uploading chunk", .openFile w.filePath],
      .error ("failed to open file: " ++ e)⟩
  | .ok _ =>
    let offset := chunkOffset i w.chunkSize
    match w.seek i with
    | .error e => ⟨[.log "uploading chunk", .openFile w.filePath, .seek offset],
        .error ("failed to seek to chunk offset: " ++ e)⟩
    | .ok _ =>
      let bufferSize := bufferSize size w.chunkSize offset
      if bufferSize < 0 then
        ⟨[.log "uploading chunk", .openFile w.filePath, .seek offset],
          .panic "makeslice: len out of range"⟩
      else
        match w.readFile i with
        | .error e =>
          ⟨[.log "uploading chunk", .openFile w.filePath, .seek offset, .readFile bufferSize],
            .error ("failed to read from chunk offset: " ++ e)⟩
        | .ok data =>
          if w.newRequestOk then
            let req := chunkRequest w versionID i ⟨bufferSize.toNat, data⟩
            match w.clientDo i with
            | .error e =>
              ⟨[.log "uploading chunk", .openFile w.filePath, .seek offset,
                  .readFile bufferSize, .clientDo req],
                .error ("failed to execute request: " ++ e)⟩
            | .ok _ =>
              ⟨[.log "uploading chunk", .openFile w.filePath, .seek offset,
                  .readFile bufferSize, .clientDo req], .ok⟩
          else
            ⟨[.log "uploading chunk", .openFile w.filePath, .seek offset, .readFile bufferSize],
              .panic "invalid memory address or nil pointer dereference"⟩

/-- Lines 87-174: the iterations `i, i+1, ..., i+remaining-1` of the chunk loop.  The loop
takes no context: nothing in it reads `cmd.Context()`. -/
def uploadLoop (w : World) (versionID : String) (size : Int) : Nat → Nat → Run
  | 0, _ => ⟨[], .ok⟩
  | remaining + 1, i =>
    (uploadChunk w versionID size i).seq (uploadLoop w versionID size remaining (i + 1))

/-- Line 200: `state == nil || state.GetState().Version.Id == ""`. -/
def noVersionYet : Option UploadState → Bool
  | none => true
  | some state => state.versionId == ""

/-- Lines 192-212: the poll loop from its iteration `j` on, `t` effects into the run. -/
def pollLoop (w : World) (versionID : String) : Nat → Nat → Nat → Run
  | 0, _, _ => ⟨[], .running⟩
  | fuel + 1, j, t =>
    match withContext w (t + 1) (w.checkVersionUploadState j) with
    | .error _ =>
      ⟨[.log "checking version upload state", .checkVersionUploadState w.modID versionID,
        .log "failed to upload mod"], .ok⟩
    | .ok state =>
      if noVersionYet state then
        Run.after [.log "checking version upload state",
            .checkVersionUploadState w.modID versionID, .sleep 10]
          (pollLoop w versionID fuel (j + 1) (t + 3))
      else if (state.map (fun s => s.autoApproved)).getD false then
        ⟨[.log "checking version upload state", .checkVersionUploadState w.modID versionID,
          .log "version successfully uploaded and auto-approved"], .ok⟩
      else
        ⟨[.log "checking version upload state", .checkVersionUploadState w.modID versionID,
          .log "version successfully uploaded, but has to be scanned for viruses, which may take up to 15 minutes"],
          .ok⟩

/-- Lines 176-214: finalize, then poll, `t` effects into the run. -/
def finalizeAndPoll (w : World) (versionID changelog : String)
    (versionStability : VersionStabilities) (fuel t : Nat) : Run :=
  match withContext w (t + 1) w.finalizeCreateVersion with
  | .error e =>
    ⟨[.log "finalizing uploaded version",
      .finalizeCreateVersion w.modID versionID changelog versionStability], .error e⟩
  | .ok success =>
    if success then
      Run.after [.log "finalizing uploaded version",
          .finalizeCreateVersion w.modID versionID changelog versionStability, .sleep 1]
        (pollLoop w versionID fuel 0 (t + 3))
    else
      Run.after [.log "finalizing uploaded version",
          .finalizeCreateVersion w.modID versionID changelog versionStability,
          .log "failed to finalize version upload", .sleep 1]
        (pollLoop w versionID fuel 0 (t + 4))

/-- Lines 77-214: from the create-version call on, for a file of `size` bytes. -/
def createAndUpload (w : World) (size : Int) (changelog : String)
    (versionStability : VersionStabilities) (fuel : Nat) : Run :=
  match withContext w 3 w.createVersion with
  | .error e =>
    ⟨[.stat w.filePath, .initCLI, .log "creating a new mod version", .createVersion w.modID],
      .error e⟩
  | .ok versionID =>
    let upload := uploadLoop w versionID size (chunkCount size w.chunkSize) 0
    Run.after [.stat w.filePath, .initCLI, .log "creating a new mod version",
        .createVersion w.modID, .log "received version id"]
      (upload.seq
        (finalizeAndPoll w versionID changelog versionStability fuel (5 + upload.trace.length)))

/-- The function `uploadCmd.RunE`; `fuel` bounds the iterations of the poll loop. -/
def runE (w : World) (fuel : Nat) : Run :=
  match validate w.chunkSize w.stability with
  | .error e => ⟨[], .error e⟩
  | .ok versionStability =>
    let changelog := " ".intercalate w.changelogArgs
    match w.stat with
    | .error e => ⟨[.stat w.filePath], .error ("failed to stat file: " ++ e)⟩
    | .ok stat =>
      match w.initCLI with
      | .error e => ⟨[.stat w.filePath, .initCLI], .error e⟩
      | .ok _ =>
        if stat.isDir then ⟨[.stat w.filePath, .initCLI], .error "file cannot be a directory"⟩
        else createAndUpload w stat.size changelog versionStability fuel

/-! ## Observations on runs -/

/-- The integer of a JSON number. -/
def Json.toInt : Json → Option Int
  | .number n => some n
  | _ => none

/-- The text of a JSON string. -/
def Json.toStr : Json → Option String
  | .string s => some s
  | _ => none

/-- The part of a multipart body with form name `name`. -/
def formPart (body : List FormPart) (name : String) : Option FormPart :=
  body.find? (fun p => p.name == name)

/-- The JSON document in the form field `name` of a request. -/
def Request.document (r : Request) (name : String) : Option Json :=
  match formPart r.body name with
  | some ⟨_, _, .document doc⟩ => some doc
  | _ => none

/-- The GraphQL variable `key` in the `operations` field of a request. -/
def Request.variable (r : Request) (key : String) : Option Json :=
  ((r.document "operations").bind (Json.field "variables")).bind (Json.field key)

/-- The part number a request carries. -/
def Request.part (r : Request) : Option Int :=
  (r.variable "part").bind Json.toInt

/-- The version id a request carries. -/
def Request.versionId (r : Request) : Option String :=
  (r.variable "versionId").bind Json.toStr

/-- Calls that reach for the server after the version was created. -/
inductive RemoteCall
  | uploadPart (part : Option Int)
  | finalize
  | checkState
deriving DecidableEq, Repr

/-- The remote call an effect is, if it is one. -/
def Event.remoteCall : Event → Option RemoteCall
  | .clientDo req => some (.uploadPart req.part)
  | .finalizeCreateVersion _ _ _ _ => some .finalize
  | .checkVersionUploadState _ _ => some .checkState
  | _ => none

/-- The chunk uploads and the finalize call of a trace, in order. -/
def uploadCalls (trace : List Event) : List RemoteCall :=
  (trace.filterMap Event.remoteCall).filter (fun c => c != .checkState)

/-- The number of version-upload-state queries of a trace. -/
def pollQueries (trace : List Event) : Nat :=
  ((trace.filterMap Event.remoteCall).filter (fun c => c == .checkState)).length

/-- The part numbers of the chunk uploads of a trace, in order. -/
def postedParts (trace : List Event) : List (Option Int) :=
  trace.filterMap (fun e => match e with
    | .clientDo req => some req.part
    | _ => none)

/-- The sleeps of a trace, in seconds, in order. -/
def sleeps (trace : List Event) : List Nat :=
  trace.filterMap (fun e => match e with
    | .sleep s => some s
    | _ => none)

/-- The version id an effect carries to the server, for the effects that carry one. -/
def Event.versionID : Event → Option (Option String)
  | .clientDo req => some req.versionId
  | .finalizeCreateVersion _ versionID _ _ => some (some versionID)
  | .checkVersionUploadState _ versionID => some (some versionID)
  | _ => none

/-- The review outcome a session reports, read off the last message it logs. -/
inductive Verdict
  | autoApproved
  | manualReview
  | unknown
deriving DecidableEq, Repr

/-- The message with which the poll loop reports each outcome (lines 196, 206, 210). -/
def Verdict.message : Verdict → String
  | .autoApproved => "version successfully uploaded and auto-approved"
  | .manualReview =>
    "version successfully uploaded, but has to be scanned for viruses, which may take up to 15 minutes"
  | .unknown => "failed to upload mod"

/-- Whether the file operations of iteration `i` succeed and its buffer can be allocated. -/
def chunkReady (w : World) (size : Int) (i : Nat) : Bool :=
  (w.openFile i).toBool && (w.seek i).toBool && (w.readFile i).toBool && w.newRequestOk &&
    decide (0 ≤ bufferSize size w.chunkSize (chunkOffset i w.chunkSize))

/-- The effects of iteration `i` when its file operations succeed. -/
def chunkEvents (w : World) (versionID : String) (size : Int) (i : Nat) (data : Nat → UInt8) :
    List Event :=
  [.log "uploading chunk", .openFile w.filePath, .seek (chunkOffset i w.chunkSize),
    .readFile (bufferSize size w.chunkSize (chunkOffset i w.chunkSize)),
    .clientDo (chunkRequest w versionID i
      ⟨(bufferSize size w.chunkSize (chunkOffset i w.chunkSize)).toNat, data⟩)]

/-- The effects before the chunk loop when a version was created (lines 58-83). -/
def startEvents (w : World) : List Event :=
  [.stat w.filePath, .initCLI, .log "creating a new mod version", .createVersion w.modID,
    .log "received version id"]

/-- The effects of the finalize step when the call returns `success` (lines 176-190). -/
def finalizeEvents (w : World) (versionID changelog : String)
    (versionStability : VersionStabilities) (success : Bool) : List Event :=
  if success then
    [.log "finalizing uploaded version",
      .finalizeCreateVersion w.modID versionID changelog versionStability, .sleep 1]
  else
    [.log "finalizing uploaded version",
      .finalizeCreateVersion w.modID versionID changelog versionStability,
      .log "failed to finalize version upload", .sleep 1]

/-- The effects of `m` poll iterations that each find no version yet. -/
def waitingRounds (w : World) (versionID : String) : Nat → List Event
  | 0 => []
  | m + 1 =>
    [.log "checking version upload state", .checkVersionUploadState w.modID versionID,
      .sleep 10] ++ waitingRounds w versionID m

/-- The effects of the last poll iteration, which reports `verdict`. -/
def lastRound (w : World) (versionID : String) (verdict : Verdict) : List Event :=
  [.log "checking version upload state", .checkVersionUploadState w.modID versionID,
    .log verdict.message]

/-- The outcome the last answer of the poll loop stands for; none while there is no version. -/
def answerVerdict : Except String (Option UploadState) → Option Verdict
  | .error _ => some .unknown
  | .ok none => none
  | .ok (some state) =>
    if state.versionId = "" then none
    else if state.autoApproved then some .autoApproved else some .manualReview

/-- The outcome a trace reports: the one whose message it logs last. -/
def sessionVerdict (trace : List Event) : Option Verdict :=
  match trace.getLast? with
  | some (.log msg) =>
    if msg = Verdict.autoApproved.message then some .autoApproved
    else if msg = Verdict.manualReview.message then some .manualReview
    else if msg = Verdict.unknown.message then some .unknown
    else none
  | _ => none

/-- The effects an iteration of the chunk loop can have: a log line, a file operation, or a
request that carries `versionID`. -/
def Event.isChunkEffect (versionID : String) : Event → Prop
  | .log _ => True
  | .openFile _ => True
  | .seek _ => True
  | .readFile _ => True
  | .clientDo req => req.versionId = some versionID
  | _ => False

/-- The version ids a trace carries to the server, in order. -/
def carriedVersionIDs (trace : List Event) : List (Option String) :=
  trace.filterMap Event.versionID

/-! ## Sample worlds -/

/-- A 25,000,000 byte file uploaded with the default flags; every call succeeds, and the
third state query finds the version, auto-approved. -/
def sampleWorld : World :=
  { chunkSize := 10000000
    stability := "release"
    apiBase := "https://api.ficsit.app"
    graphqlApi := "/v2/query"
    apiKey := "key"
    modID := "mod"
    filePath := "/tmp/a.smod"
    changelogArgs := ["first", "release"]
    stat := .ok ⟨25000000, false⟩
    initCLI := .ok ()
    createVersion := .ok "v1"
    openFile := fun _ => .ok ()
    seek := fun _ => .ok ()
    readFile := fun _ => .ok (fun _ => 0)
    base := fun _ => "a.smod"
    boundary := fun _ => "boundary"
    newRequestOk := true
    clientDo := fun _ => .ok ()
    finalizeCreateVersion := .ok true
    checkVersionUploadState := fun j => if j < 2 then .ok none else .ok (some ⟨"v1", true⟩)
    ctxDone := fun _ => false }

/-- The sample world with the second chunk request failing in the network. -/
def secondSendFails : World :=
  { sampleWorld with
    clientDo := fun i => if i = 1 then .error "connection refused" else .ok () }

/-- The sample world with a server that answers create-version with an empty id. -/
def emptyIdWorld : World :=
  { sampleWorld with createVersion := .ok "" }

/-- The sample world with the context cancelled once the version id has been received,
before the first chunk is started. -/
def cancelledWorld : World :=
  { sampleWorld with ctxDone := fun t => decide (5 ≤ t) }

/-- The sample world with a finalize call that reports `success = false`. -/
def finalizeUnsuccessful : World :=
  { sampleWorld with finalizeCreateVersion := .ok false }

/-- The sample world with a file of 4,611,700,530,729,999,999 bytes. -/
def hugeFileWorld : World :=
  { sampleWorld with stat := .ok ⟨4611700530729999999, false⟩ }

/-! ## Binary64 rounding -/
theorem log2Aux_spec (fuel : Nat) : ∀ n : Nat, 0 < n → n ≤ fuel →
    2 ^ log2Aux fuel n ≤ n ∧ n < 2 ^ (log2Aux fuel n + 1) := by
  induction fuel with
  | zero => intro n h0 h1; omega
  | succ f ih =>
    intro n h0 h1
    unfold log2Aux
    by_cases h2 : n < 2
    · have : n = 1 := by omega
      subst this
      simp
    · rw [if_neg h2]
      have h3 := ih (n / 2) (by omega) (by omega)
      obtain ⟨h4, h5⟩ := h3
      constructor
      · rw [pow_succ]; omega
      · rw [pow_succ]; omega

theorem ilog2_spec (n : Nat) (h : 0 < n) : 2 ^ ilog2 n ≤ n ∧ n < 2 ^ (ilog2 n + 1) :=
  log2Aux_spec n n h (le_refl n)

theorem ceil_round_aux (x y K A C : Nat) (hA : 0 < A) (hK : 0 < K) (hy : 0 < y)
    (hC1 : (C - 1) * y < x) (hC2 : x ≤ C * y) (hnorm : y < 2 * K) :
    ((if y * A < 2 * (x * (K * A) % (y * A)) ∨
          (2 * (x * (K * A) % (y * A)) = y * A ∧ x * (K * A) / (y * A) % 2 = 1)
        then x * (K * A) / (y * A) + 1 else x * (K * A) / (y * A)) * A + K * A - 1) / (K * A)
      = C := by
  have hC0 : 0 < C := by
    rcases Nat.eq_zero_or_pos C with h | h
    · subst h; simp at hC2; omega
    · exact h
  have e1 : x * (K * A) = (x * K) * A := by ring
  rw [e1, Nat.mul_div_mul_right _ _ hA, Nat.mul_mod_mul_right]
  set q0 := x * K / y with hq0
  set r0 := x * K % y with hr0
  have hdiv : x * K = y * q0 + r0 := (Nat.div_add_mod (x * K) y).symm
  have hr0lt : r0 < y := Nat.mod_lt _ hy
  -- bounds on q0
  have hlow : (C - 1) * K ≤ q0 := by
    rw [hq0, Nat.le_div_iff_mul_le hy]
    have : (C - 1) * y * K ≤ x * K := Nat.mul_le_mul_right K (le_of_lt hC1)
    calc (C - 1) * K * y = (C - 1) * y * K := by ring
      _ ≤ x * K := this
  have hupp : q0 ≤ C * K := by
    rw [hq0]
    apply Nat.div_le_of_le_mul
    calc x * K ≤ C * y * K := Nat.mul_le_mul_right K hC2
      _ = y * (C * K) := by ring
  have hupp0 : q0 = C * K → r0 = 0 := by
    intro h
    have : x * K ≤ C * y * K := Nat.mul_le_mul_right K hC2
    have h2 : y * q0 = C * y * K := by rw [h]; ring
    omega
  have hlow0 : q0 = (C - 1) * K → K ≤ r0 := by
    intro h
    have h1 : ((C - 1) * y + 1) * K ≤ x * K := Nat.mul_le_mul_right K hC1
    have h2 : y * q0 = (C - 1) * y * K := by rw [h]; ring
    have h3 : ((C - 1) * y + 1) * K = (C - 1) * y * K + K := by ring
    omega
  -- the rounded significand lies in ((C-1)K, CK]
  have key : ∀ m' : Nat, (C - 1) * K < m' → m' ≤ C * K →
      (m' * A + K * A - 1) / (K * A) = C := by
    intro m' h1 h2
    have hKA : 0 < K * A := Nat.mul_pos hK hA
    apply Nat.div_eq_of_lt_le
    · have : ((C - 1) * K + 1) * A ≤ m' * A := Nat.mul_le_mul_right A h1
      have e : C * (K * A) = (C - 1) * K * A + K * A := by
        obtain ⟨c, rfl⟩ : ∃ c, C = c + 1 := ⟨C - 1, by omega⟩
        simp; ring
      have e2 : ((C - 1) * K + 1) * A = (C - 1) * K * A + A := by ring
      omega
    · have : m' * A ≤ C * K * A := Nat.mul_le_mul_right A h2
      have e : (C + 1) * (K * A) = C * K * A + K * A := by ring
      omega
  split_ifs with hc
  · apply key
    · omega
    · rcases hc with hc | ⟨hc, _⟩
      · have : r0 ≠ 0 := by
          intro h0; rw [h0] at hc; simp at hc
        have : q0 ≠ C * K := fun h => this (hupp0 h)
        omega
      · have : r0 ≠ 0 := by
          intro h0; rw [h0] at hc; simp at hc; omega
        have : q0 ≠ C * K := fun h => this (hupp0 h)
        omega
  · apply key
    · rcases Nat.lt_or_ge ((C - 1) * K) q0 with h | h
      · exact h
      · exfalso
        have hq : q0 = (C - 1) * K := by omega
        have hK' := hlow0 hq
        apply hc
        left
        have : y * A < 2 * K * A := Nat.mul_lt_mul_of_pos_right hnorm hA
        have : 2 * K * A ≤ 2 * r0 * A := Nat.mul_le_mul_right A (by omega)
        calc y * A < 2 * K * A := by assumption
          _ ≤ 2 * r0 * A := this
          _ = 2 * (r0 * A) := by ring
    · exact hupp

theorem ceilDiv_bounds (x y : Nat) (hx : 0 < x) (hy : 0 < y) :
    ((x + y - 1) / y - 1) * y < x ∧ x ≤ (x + y - 1) / y * y := by
  have h1 := Nat.div_add_mod (x + y - 1) y
  have h2 := Nat.mod_lt (x + y - 1) hy
  set C := (x + y - 1) / y with hC
  have hCpos : 0 < C := by
    rw [hC]; exact Nat.div_pos (by omega) hy
  obtain ⟨c, hc⟩ : ∃ c, C = c + 1 := ⟨C - 1, by omega⟩
  rw [hc] at h1 ⊢
  have e1 : y * (c + 1) = c * y + y := by ring
  have e2 : (c + 1) * y = c * y + y := by ring
  simp only [Nat.add_sub_cancel]
  omega

theorem mathCeil_float64Div_exact (x y : Nat) (hx : x < 2 ^ 53) (hy : 0 < y) :
    mathCeil (float64Div x y) = (x + y - 1) / y := by
  by_cases hx0 : x = 0
  · subst hx0
    have : (y - 1) / y = 0 := Nat.div_eq_of_lt (by omega)
    simp [float64Div, mathCeil, this]
  have hxpos : 0 < x := Nat.pos_of_ne_zero hx0
  obtain ⟨hu1, hu2⟩ := ilog2_spec x hxpos
  obtain ⟨hl1, hl2⟩ := ilog2_spec y hy
  obtain ⟨hC1, hC2⟩ := ceilDiv_bounds x y hxpos hy
  have hup : ilog2 x ≤ 52 := by
    by_contra h
    have : 2 ^ 53 ≤ 2 ^ ilog2 x := Nat.pow_le_pow_right (by norm_num) (by omega)
    omega
  -- the scale
  obtain ⟨down, hdown, hge, hnorm⟩ : ∃ down,
      down = (if x * 2 ^ (ilog2 y + 52) < 2 ^ 52 * (y * 2 ^ ilog2 x) then ilog2 y + 53
        else ilog2 y + 52) ∧ 52 ≤ down ∧ 2 ^ 52 * (y * 2 ^ ilog2 x) ≤ x * 2 ^ down := by
    refine ⟨_, rfl, ?_, ?_⟩
    · split_ifs <;> omega
    · split_ifs with h
      · have e : x * 2 ^ (ilog2 y + 53) = 2 ^ 52 * (x * 2 ^ (ilog2 y + 1)) := by
          rw [show ilog2 y + 53 = 52 + (ilog2 y + 1) by omega, pow_add]; ring
        rw [e]
        apply Nat.mul_le_mul_left
        calc y * 2 ^ ilog2 x ≤ 2 ^ (ilog2 y + 1) * x :=
              Nat.mul_le_mul (le_of_lt hl2) hu1
          _ = x * 2 ^ (ilog2 y + 1) := by ring
      · omega
  have hKA : 2 ^ down = 2 ^ (down - ilog2 x) * 2 ^ ilog2 x := by
    rw [← pow_add]; congr 1; omega
  have hy2K : y < 2 * 2 ^ (down - ilog2 x) := by
    have h1 : 2 ^ 52 * (y * 2 ^ ilog2 x) < 2 ^ 53 * 2 ^ down := by
      calc 2 ^ 52 * (y * 2 ^ ilog2 x) ≤ x * 2 ^ down := hnorm
        _ < 2 ^ 53 * 2 ^ down := Nat.mul_lt_mul_of_pos_right hx (by positivity)
    rw [hKA] at h1
    have h2 : 2 ^ 52 * 2 ^ ilog2 x * y < 2 ^ 52 * 2 ^ ilog2 x * (2 * 2 ^ (down - ilog2 x)) := by
      calc 2 ^ 52 * 2 ^ ilog2 x * y = 2 ^ 52 * (y * 2 ^ ilog2 x) := by ring
        _ < 2 ^ 53 * (2 ^ (down - ilog2 x) * 2 ^ ilog2 x) := h1
        _ = 2 ^ 52 * 2 ^ ilog2 x * (2 * 2 ^ (down - ilog2 x)) := by ring
    exact Nat.lt_of_mul_lt_mul_left h2
  have haux := ceil_round_aux x y (2 ^ (down - ilog2 x)) (2 ^ ilog2 x) ((x + y - 1) / y)
    (by positivity) (by positivity) hy hC1 hC2 hy2K
  rw [← hKA] at haux
  rw [← haux]
  unfold float64Div mathCeil
  rw [if_neg hx0]
  simp only [← hdown]
  split_ifs <;> rfl

theorem wrapInt64_of_range (z : Int) (h1 : -(2 ^ 63) ≤ z) (h2 : z < 2 ^ 63) : wrapInt64 z = z := by
  unfold wrapInt64
  omega

theorem float64OfInt64_exact (n : Nat) (h : n < 2 ^ 53) : float64OfInt64 n = n := by
  unfold float64OfInt64
  rw [if_pos h]

theorem float64OfInt64_large (n : Nat) (h : 2 ^ 53 ≤ n) : 2 ^ 53 ≤ float64OfInt64 n := by
  have hn : 0 < n := by
    have : 0 < 2 ^ 53 := by norm_num
    omega
  obtain ⟨hl1, hl2⟩ := ilog2_spec n hn
  have hlog : 53 ≤ ilog2 n := by
    by_contra hlt
    have : 2 ^ (ilog2 n + 1) ≤ 2 ^ 53 := Nat.pow_le_pow_right (by norm_num) (by omega)
    omega
  have hm : 2 ^ 52 ≤ n / 2 ^ (ilog2 n - 52) := by
    rw [Nat.le_div_iff_mul_le (by positivity), ← pow_add]
    rwa [show 52 + (ilog2 n - 52) = ilog2 n by omega]
  have he : 2 ≤ 2 ^ (ilog2 n - 52) := by
    calc 2 = 2 ^ 1 := by norm_num
      _ ≤ 2 ^ (ilog2 n - 52) := Nat.pow_le_pow_right (by norm_num) (by omega)
  have hbase : 2 ^ 53 ≤ n / 2 ^ (ilog2 n - 52) * 2 ^ (ilog2 n - 52) := by
    calc 2 ^ 53 = 2 ^ 52 * 2 := by norm_num
      _ ≤ n / 2 ^ (ilog2 n - 52) * 2 ^ (ilog2 n - 52) := Nat.mul_le_mul hm he
  unfold float64OfInt64
  rw [if_neg (by omega)]
  simp only []
  split_ifs
  · calc 2 ^ 53 ≤ n / 2 ^ (ilog2 n - 52) * 2 ^ (ilog2 n - 52) := hbase
      _ ≤ (n / 2 ^ (ilog2 n - 52) + 1) * 2 ^ (ilog2 n - 52) :=
        Nat.mul_le_mul_right _ (Nat.le_succ _)
  · exact hbase

theorem ceilDiv_of_le (x y : Nat) (hy : 0 < y) (hxy : x ≤ y) :
    (x + y - 1) / y = if x = 0 then 0 else 1 := by
  split_ifs with h
  · subst h
    exact Nat.div_eq_of_lt (by omega)
  · exact Nat.div_eq_of_lt_le (by omega) (by omega)

/-- Below `2^53` bytes the floating point chunk count is the exact ceiling, for every chunk
size from 1 up. -/
theorem chunkCount_exact (size chunkSize : Int) (h0 : 0 ≤ size) (h1 : size < 2 ^ 53)
    (hc : 1 ≤ chunkSize) : (chunkCount size chunkSize : Int) = ceilDiv size chunkSize := by
  obtain ⟨x, rfl⟩ := Int.eq_ofNat_of_zero_le h0
  obtain ⟨y, rfl⟩ := Int.eq_ofNat_of_zero_le (by omega : 0 ≤ chunkSize)
  have hx : x < 2 ^ 53 := by exact_mod_cast h1
  have hy : 0 < y := by omega
  have hcast : (((x + y - 1) / y : Nat) : Int) = ceilDiv (x : Int) (y : Int) := by
    unfold ceilDiv
    rw [Int.natCast_div, Nat.cast_sub (by omega)]
    push_cast
    rfl
  rw [← hcast]
  congr 1
  unfold chunkCount
  simp only [Int.toNat_ofNat, float64OfInt64_exact x hx]
  by_cases hy2 : y < 2 ^ 53
  · rw [float64OfInt64_exact y hy2]
    exact mathCeil_float64Div_exact x y hx hy
  · have hY := float64OfInt64_large y (by omega)
    rw [mathCeil_float64Div_exact x _ hx (by omega), ceilDiv_of_le x _ (by omega) (by omega),
      ceilDiv_of_le x y hy (by omega)]

theorem ceilDiv_bounds_int (size chunkSize : Int) (h0 : 0 < size) (hc : 1 ≤ chunkSize) :
    (ceilDiv size chunkSize - 1) * chunkSize < size ∧ size ≤ ceilDiv size chunkSize * chunkSize ∧
      1 ≤ ceilDiv size chunkSize := by
  unfold ceilDiv
  have h1 := Int.ediv_add_emod (size + chunkSize - 1) chunkSize
  have h2 := Int.emod_nonneg (size + chunkSize - 1) (by omega : chunkSize ≠ 0)
  have h3 := Int.emod_lt_of_pos (size + chunkSize - 1) (by omega : 0 < chunkSize)
  set q := (size + chunkSize - 1) / chunkSize
  have e1 : (q - 1) * chunkSize = chunkSize * q - chunkSize := by ring
  have e2 : q * chunkSize = chunkSize * q := by ring
  refine ⟨by omega, by omega, ?_⟩
  by_contra hq
  have hq0 : q ≤ 0 := by omega
  have : chunkSize * q ≤ 0 := Int.mul_nonpos_of_nonneg_of_nonpos (by omega) hq0
  omega

/-- Below `2^53` bytes the chunks of the loop are a partition of the file: the count is the
exact ceiling, no `int64` operation overflows, chunk `i` starts at `i * chunkSize`, inside
the file, and has `min(chunkSize, size - offset)` bytes, at least one; consecutive chunks
touch, the first starts at 0 and the last ends at the end of the file. -/
theorem chunk_plan_partition (size chunkSize : Int) (h0 : 0 ≤ size) (h1 : size < 2 ^ 53)
    (hc : 1000000 ≤ chunkSize) (hc2 : chunkSize < 2 ^ 63) :
    (chunkCount size chunkSize : Int) = ceilDiv size chunkSize ∧
    (∀ i, i < chunkCount size chunkSize →
      chunkOffset i chunkSize = (i : Int) * chunkSize ∧
      0 ≤ chunkOffset i chunkSize ∧ chunkOffset i chunkSize < size ∧
      chunkOffset i chunkSize + chunkSize < 2 ^ 63 ∧
      bufferSize size chunkSize (chunkOffset i chunkSize) =
        min chunkSize (size - chunkOffset i chunkSize) ∧
      1 ≤ bufferSize size chunkSize (chunkOffset i chunkSize) ∧
      bufferSize size chunkSize (chunkOffset i chunkSize) ≤ chunkSize) ∧
    (∀ i, i + 1 < chunkCount size chunkSize →
      chunkOffset (i + 1) chunkSize =
        chunkOffset i chunkSize + bufferSize size chunkSize (chunkOffset i chunkSize)) ∧
    (0 < chunkCount size chunkSize →
      chunkOffset 0 chunkSize = 0 ∧
      chunkOffset (chunkCount size chunkSize - 1) chunkSize +
        bufferSize size chunkSize (chunkOffset (chunkCount size chunkSize - 1) chunkSize) =
          size) ∧
    (size = 0 → chunkCount size chunkSize = 0) := by
  have hcount := chunkCount_exact size chunkSize h0 h1 (by omega)
  have hzero : size = 0 → chunkCount size chunkSize = 0 := by
    intro hs
    have : ceilDiv size chunkSize = 0 := by
      unfold ceilDiv
      rw [hs]
      exact Int.ediv_eq_zero_of_lt (by omega) (by omega)
    omega
  -- facts about one index
  have hidx : ∀ i : Nat, i < chunkCount size chunkSize →
      chunkOffset i chunkSize = (i : Int) * chunkSize ∧ 0 ≤ (i : Int) * chunkSize ∧
      (i : Int) * chunkSize < size ∧ (i : Int) * chunkSize + chunkSize < 2 ^ 63 := by
    intro i hi
    have hpos : 0 < size := by
      rcases (lt_or_eq_of_le h0) with h | h
      · exact h
      · have := hzero h.symm; omega
    obtain ⟨hb1, _, _⟩ := ceilDiv_bounds_int size chunkSize hpos (by omega)
    rw [← hcount] at hb1
    have hnn : 0 ≤ (i : Int) * chunkSize := Int.mul_nonneg (by omega) (by omega)
    have hle : (i : Int) * chunkSize ≤ ((chunkCount size chunkSize : Int) - 1) * chunkSize :=
      Int.mul_le_mul_of_nonneg_right (by omega) (by omega)
    have hlt : (i : Int) * chunkSize < size := by omega
    have hsum : (i : Int) * chunkSize + chunkSize < 2 ^ 63 := by
      rcases Nat.eq_zero_or_pos i with hi0 | hi0
      · subst hi0; simp; omega
      · have : chunkSize ≤ (i : Int) * chunkSize := by
          have := Int.mul_le_mul_of_nonneg_right (by omega : (1 : Int) ≤ i)
            (by omega : 0 ≤ chunkSize)
          simpa using this
        omega
    refine ⟨?_, hnn, hlt, hsum⟩
    unfold chunkOffset
    exact wrapInt64_of_range _ (by omega) (by omega)
  have hbuf : ∀ i : Nat, i < chunkCount size chunkSize →
      bufferSize size chunkSize (chunkOffset i chunkSize) =
        min chunkSize (size - (i : Int) * chunkSize) := by
    intro i hi
    obtain ⟨ho, hnn, hlt, hsum⟩ := hidx i hi
    unfold bufferSize
    rw [ho, wrapInt64_of_range _ (by omega) (by omega)]
    split_ifs with h
    · rw [wrapInt64_of_range _ (by omega) (by omega)]
      omega
    · omega
  refine ⟨hcount, ?_, ?_, ?_, hzero⟩
  · intro i hi
    obtain ⟨ho, hnn, hlt, hsum⟩ := hidx i hi
    have hb := hbuf i hi
    rw [hb, ho]
    refine ⟨rfl, hnn, hlt, hsum, rfl, ?_, ?_⟩ <;> omega
  · intro i hi
    obtain ⟨ho, hnn, hlt, hsum⟩ := hidx i (by omega)
    obtain ⟨ho', _, hlt', _⟩ := hidx (i + 1) hi
    rw [hbuf i (by omega), ho, ho']
    have e : ((i + 1 : Nat) : Int) * chunkSize = (i : Int) * chunkSize + chunkSize := by
      push_cast; ring
    rw [e] at hlt' ⊢
    omega
  · intro hn
    have hpos : 0 < size := by
      rcases (lt_or_eq_of_le h0) with h | h
      · exact h
      · have := hzero h.symm; omega
    obtain ⟨hb1, hb2, _⟩ := ceilDiv_bounds_int size chunkSize hpos (by omega)
    rw [← hcount] at hb1 hb2
    obtain ⟨ho, _, _, _⟩ := hidx 0 hn
    obtain ⟨hl, _, hlt, _⟩ := hidx (chunkCount size chunkSize - 1) (by omega)
    refine ⟨by simpa using ho, ?_⟩
    rw [hbuf _ (by omega), hl]
    have e : ((chunkCount size chunkSize - 1 : Nat) : Int) = (chunkCount size chunkSize : Int) - 1 := by
      omega
    rw [e] at hlt ⊢
    have e2 : (chunkCount size chunkSize : Int) * chunkSize =
        ((chunkCount size chunkSize : Int) - 1) * chunkSize + chunkSize := by ring
    omega

/-- The witness of the specification: 25,000,000 bytes in chunks of 10,000,000 bytes are the
offsets 0, 10000000, 20000000 with the lengths 10000000, 10000000, 5000000; 500,000 bytes in
chunks of 1,000,000 bytes are one chunk of 500000 bytes at offset 0; an empty file has no
chunk. -/
theorem chunk_plan_examples :
    chunkCount 25000000 10000000 = 3 ∧
      (List.range 3).map (fun i => chunkOffset i 10000000) = [0, 10000000, 20000000] ∧
      (List.range 3).map (fun i => bufferSize 25000000 10000000 (chunkOffset i 10000000)) =
        [10000000, 10000000, 5000000] ∧
      chunkCount 500000 1000000 = 1 ∧ chunkOffset 0 1000000 = 0 ∧
      bufferSize 500000 1000000 (chunkOffset 0 1000000) = 500000 ∧
      chunkCount 0 1000000 = 0 := by
  decide

/-- The partition theorem at the sample file: three chunks, the exact ceiling. -/
theorem chunk_plan_partition_sample : (chunkCount 25000000 10000000 : Int) = ceilDiv 25000000 10000000 :=
  (chunk_plan_partition 25000000 10000000 (by decide) (by decide) (by decide) (by decide)).1

/-! ## The claims on the chunk arithmetic -/

/-- C1 on the code: for a file of 9,007,199,260,000,001 bytes and the default chunk size of
10,000,000 bytes the loop runs 900,719,926 times; its last chunk starts at
9,007,199,250,000,000, has 10,000,000 bytes and ends at 9,007,199,260,000,000, one byte
before the end of the file, so the chunks do not cover `[0, size)`. -/
theorem last_byte_not_covered :
    chunkCount 9007199260000001 10000000 = 900719926 ∧
      chunkOffset 900719925 10000000 = 9007199250000000 ∧
      bufferSize 9007199260000001 10000000 (chunkOffset 900719925 10000000) = 10000000 ∧
      chunkOffset 900719925 10000000 +
          bufferSize 9007199260000001 10000000 (chunkOffset 900719925 10000000) <
        9007199260000001 := by
  decide

/-- C2 on the code: `float64(9007199255000001)` is 9007199255000000, so for this size and a
chunk size of 1,000,000 the computed chunk count is 9,007,199,255 while the exact ceiling
is 9,007,199,256. -/
theorem chunkCount_undercounts :
    float64OfInt64 9007199255000001 = 9007199255000000 ∧
      chunkCount 9007199255000001 1000000 = 9007199255 ∧
      ceilDiv 9007199255000001 1000000 = 9007199256 := by
  decide

/-- C10 on the code: for a file of 4,611,700,530,729,999,999 bytes and the default chunk
size of 10,000,000 bytes the quotient rounds up past an integer and the loop runs
461,170,053,074 times, once more than the exact ceiling; in its last iteration the offset
lies beyond the end of the file, the buffer size is -1 and the allocation panics. -/
theorem negative_buffer_size :
    chunkCount 4611700530729999999 10000000 = 461170053074 ∧
      ceilDiv 4611700530729999999 10000000 = 461170053073 ∧
      chunkOffset 461170053073 10000000 = 4611700530730000000 ∧
      bufferSize 4611700530729999999 10000000 (chunkOffset 461170053073 10000000) = -1 ∧
      (uploadChunk hugeFileWorld "v1" 4611700530729999999 461170053073).outcome =
        .panic "makeslice: len out of range" := by
  decide

/-! ## Runs: the chunk loop -/

theorem chunkRequest_part (w : World) (versionID : String) (i : Nat) (chunk : Chunk) :
    (chunkRequest w versionID i chunk).part = some ((i : Int) + 1) := by
  rfl

theorem chunkRequest_versionId (w : World) (versionID : String) (i : Nat) (chunk : Chunk) :
    (chunkRequest w versionID i chunk).versionId = some versionID := by
  rfl

theorem uploadCalls_append (a b : List Event) :
    uploadCalls (a ++ b) = uploadCalls a ++ uploadCalls b := by
  simp [uploadCalls]

theorem pollQueries_append (a b : List Event) :
    pollQueries (a ++ b) = pollQueries a + pollQueries b := by
  simp [pollQueries]

theorem postedParts_append (a b : List Event) :
    postedParts (a ++ b) = postedParts a ++ postedParts b := by
  simp [postedParts]

theorem sleeps_append (a b : List Event) : sleeps (a ++ b) = sleeps a ++ sleeps b := by
  simp [sleeps]

theorem uploadCalls_chunkEvents (w : World) (versionID : String) (size : Int) (i : Nat)
    (data : Nat → UInt8) :
    uploadCalls (chunkEvents w versionID size i data) = [.uploadPart (some ((i : Int) + 1))] := by
  simp [uploadCalls, chunkEvents, Event.remoteCall, chunkRequest_part]

theorem pollQueries_chunkEvents (w : World) (versionID : String) (size : Int) (i : Nat)
    (data : Nat → UInt8) : pollQueries (chunkEvents w versionID size i data) = 0 := by
  simp [pollQueries, chunkEvents, Event.remoteCall]

theorem uploadChunk_ready (w : World) (versionID : String) (size : Int) (i : Nat)
    (h : chunkReady w size i = true) :
    ∃ data, w.readFile i = .ok data ∧
      uploadChunk w versionID size i =
        ⟨chunkEvents w versionID size i data,
          match w.clientDo i with
          | .error e => .error ("failed to execute request: " ++ e)
          | .ok _ => .ok⟩ := by
  unfold chunkReady at h
  simp only [Bool.and_eq_true, decide_eq_true_eq] at h
  obtain ⟨⟨⟨⟨ho, hs⟩, hr⟩, hn⟩, hb⟩ := h
  unfold uploadChunk
  cases hopen : w.openFile i with
  | error e => rw [hopen] at ho; simp [Except.toBool] at ho
  | ok u =>
    cases hseek : w.seek i with
    | error e => rw [hseek] at hs; simp [Except.toBool] at hs
    | ok u2 =>
      cases hread : w.readFile i with
      | error e => rw [hread] at hr; simp [Except.toBool] at hr
      | ok data =>
        refine ⟨data, rfl, ?_⟩
        simp only [hn, if_true]
        rw [if_neg (by omega)]
        cases w.clientDo i <;> rfl

theorem uploadLoop_ok (w : World) (versionID : String) (size : Int) :
    ∀ (remaining i : Nat),
      (∀ k, i ≤ k → k < i + remaining → chunkReady w size k = true ∧ w.clientDo k = .ok ()) →
      (uploadLoop w versionID size remaining i).outcome = .ok ∧
      uploadCalls (uploadLoop w versionID size remaining i).trace =
        (List.range' i remaining).map (fun k => RemoteCall.uploadPart (some ((k : Int) + 1))) ∧
      pollQueries (uploadLoop w versionID size remaining i).trace = 0 := by
  intro remaining
  induction remaining with
  | zero => intro i _; simp [uploadLoop, uploadCalls, pollQueries]
  | succ r ih =>
    intro i h
    obtain ⟨hready, hdo⟩ := h i (le_refl i) (by omega)
    obtain ⟨data, _, hchunk⟩ := uploadChunk_ready w versionID size i hready
    obtain ⟨h1, h2, h3⟩ := ih (i + 1) (fun k hk1 hk2 => h k (by omega) (by omega))
    rw [hdo] at hchunk
    simp only [uploadLoop, hchunk, Run.seq]
    refine ⟨h1, ?_, ?_⟩
    · rw [uploadCalls_append, uploadCalls_chunkEvents, h2]
      simp [List.range'_succ]
    · rw [pollQueries_append, pollQueries_chunkEvents, h3]

theorem uploadLoop_fail (w : World) (versionID : String) (size : Int) (e : String) :
    ∀ (remaining i k : Nat), i ≤ k → k < i + remaining →
      (∀ j, i ≤ j → j < k → chunkReady w size j = true ∧ w.clientDo j = .ok ()) →
      chunkReady w size k = true → w.clientDo k = .error e →
      (uploadLoop w versionID size remaining i).outcome =
        .error ("failed to execute request: " ++ e) ∧
      uploadCalls (uploadLoop w versionID size remaining i).trace =
        (List.range' i (k + 1 - i)).map (fun k => RemoteCall.uploadPart (some ((k : Int) + 1))) ∧
      pollQueries (uploadLoop w versionID size remaining i).trace = 0 := by
  intro remaining
  induction remaining with
  | zero => intro i k h1 h2; omega
  | succ r ih =>
    intro i k hik hkr hbefore hready hfail
    rcases Nat.eq_or_lt_of_le hik with heq | hlt
    · subst heq
      obtain ⟨data, _, hchunk⟩ := uploadChunk_ready w versionID size i hready
      rw [hfail] at hchunk
      simp only [uploadLoop, hchunk, Run.seq]
      refine ⟨trivial, ?_, pollQueries_chunkEvents _ _ _ _ _⟩
      rw [uploadCalls_chunkEvents]
      simp
    · obtain ⟨hri, hdo⟩ := hbefore i (le_refl i) hlt
      obtain ⟨data, _, hchunk⟩ := uploadChunk_ready w versionID size i hri
      rw [hdo] at hchunk
      obtain ⟨h1, h2, h3⟩ := ih (i + 1) k (by omega) (by omega)
        (fun j hj1 hj2 => hbefore j (by omega) hj2) hready hfail
      simp only [uploadLoop, hchunk, Run.seq]
      refine ⟨h1, ?_, ?_⟩
      · rw [uploadCalls_append, uploadCalls_chunkEvents, h2]
        have : k + 1 - i = (k + 1 - (i + 1)) + 1 := by omega
        rw [this, List.range'_succ]
        simp
      · rw [pollQueries_append, pollQueries_chunkEvents, h3]

/-! ## Runs: finalize and poll -/

theorem pollLoop_script (w : World) (versionID : String) (hctx : ∀ t, w.ctxDone t = false)
    (verdict : Verdict) :
    ∀ (m fuel j t : Nat), m < fuel →
      (∀ k, k < m → answerVerdict (w.checkVersionUploadState (j + k)) = none) →
      answerVerdict (w.checkVersionUploadState (j + m)) = some verdict →
      pollLoop w versionID fuel j t =
        ⟨waitingRounds w versionID m ++ lastRound w versionID verdict, .ok⟩ := by
  intro m
  induction m with
  | zero =>
    intro fuel j t hfuel _ hlast
    obtain ⟨f, rfl⟩ : ∃ f, fuel = f + 1 := ⟨fuel - 1, by omega⟩
    simp only [Nat.add_zero] at hlast
    unfold pollLoop
    simp only [withContext, hctx, Bool.false_eq_true, if_false]
    cases hans : w.checkVersionUploadState j with
    | error e =>
      rw [hans] at hlast
      simp only [answerVerdict, Option.some.injEq] at hlast
      subst hlast
      rfl
    | ok state =>
      rw [hans] at hlast
      cases state with
      | none => simp [answerVerdict] at hlast
      | some st =>
        simp only [answerVerdict] at hlast
        by_cases hid : st.versionId = ""
        · simp [hid] at hlast
        · simp only [hid, if_false] at hlast
          by_cases hauto : st.autoApproved = true
          · simp only [hauto, if_true, Option.some.injEq] at hlast
            subst hlast
            simp [noVersionYet, hid, hauto, waitingRounds, lastRound, Verdict.message]
          · simp only [hauto, Bool.false_eq_true, if_false, Option.some.injEq] at hlast
            subst hlast
            simp [noVersionYet, hid, hauto, waitingRounds, lastRound, Verdict.message]
  | succ m ih =>
    intro fuel j t hfuel hwait hlast
    obtain ⟨f, rfl⟩ : ∃ f, fuel = f + 1 := ⟨fuel - 1, by omega⟩
    have h0 := hwait 0 (by omega)
    simp only [Nat.add_zero] at h0
    have hrest := ih f (j + 1) (t + 3) (by omega)
      (fun k hk => by
        have := hwait (k + 1) (by omega)
        rwa [show j + (k + 1) = j + 1 + k by omega] at this)
      (by rwa [show j + (m + 1) = j + 1 + m by omega] at hlast)
    unfold pollLoop
    simp only [withContext, hctx, Bool.false_eq_true, if_false]
    cases hans : w.checkVersionUploadState j with
    | error e => rw [hans] at h0; simp [answerVerdict] at h0
    | ok state =>
      rw [hans] at h0
      have hno : noVersionYet state = true := by
        cases state with
        | none => rfl
        | some st =>
          simp only [answerVerdict] at h0
          by_cases hid : st.versionId = ""
          · simp [noVersionYet, hid]
          · by_cases hauto : st.autoApproved = true <;> simp [hid, hauto] at h0
      simp only [hno, if_true, hrest, Run.after, waitingRounds]
      simp

theorem runE_started (w : World) (fuel : Nat) (versionStability : VersionStabilities)
    (info : FileInfo) (versionID : String)
    (hval : validate w.chunkSize w.stability = .ok versionStability)
    (hstat : w.stat = .ok info) (hcli : w.initCLI = .ok ()) (hdir : info.isDir = false)
    (hcreate : withContext w 3 w.createVersion = .ok versionID) :
    runE w fuel =
      Run.after (startEvents w)
        ((uploadLoop w versionID info.size (chunkCount info.size w.chunkSize) 0).seq
          (finalizeAndPoll w versionID (" ".intercalate w.changelogArgs) versionStability fuel
            (5 + (uploadLoop w versionID info.size
              (chunkCount info.size w.chunkSize) 0).trace.length))) := by
  unfold runE
  simp only [hval, hstat, hcli, hdir, Bool.false_eq_true, if_false]
  unfold createAndUpload
  simp only [hcreate]
  rfl

/-! ## Runs: what each phase can do -/

theorem uploadChunk_effects (w : World) (versionID : String) (size : Int) (i : Nat) :
    ∀ e ∈ (uploadChunk w versionID size i).trace, e.isChunkEffect versionID := by
  unfold uploadChunk
  cases w.openFile i <;> cases w.seek i <;> cases w.readFile i <;> cases w.clientDo i <;>
    by_cases h1 : bufferSize size w.chunkSize (chunkOffset i w.chunkSize) < 0 <;>
    by_cases h2 : w.newRequestOk = true <;>
    simp [h1, h2, Event.isChunkEffect, chunkRequest_versionId]

theorem uploadLoop_effects (w : World) (versionID : String) (size : Int) :
    ∀ (remaining i : Nat), ∀ e ∈ (uploadLoop w versionID size remaining i).trace,
      e.isChunkEffect versionID := by
  intro remaining
  induction remaining with
  | zero => intro i e he; simp [uploadLoop] at he
  | succ r ih =>
    intro i e he
    simp only [uploadLoop, Run.seq] at he
    split at he
    · simp only [List.mem_append] at he
      rcases he with he | he
      · exact uploadChunk_effects w versionID size i e he
      · exact ih (i + 1) e he
    · exact uploadChunk_effects w versionID size i e he

theorem chunkEffect_versionID (versionID : String) (e : Event) (h : e.isChunkEffect versionID)
    (v : Option String) (hv : e.versionID = some v) : v = some versionID := by
  cases e <;> simp [Event.versionID, Event.isChunkEffect] at h hv
  rw [← hv, h]

theorem chunkEffects_sleeps (versionID : String) (trace : List Event)
    (h : ∀ e ∈ trace, e.isChunkEffect versionID) : sleeps trace = [] := by
  unfold sleeps
  rw [List.filterMap_eq_nil_iff]
  intro e he
  have := h e he
  cases e <;> simp [Event.isChunkEffect] at this ⊢

theorem chunkEffects_pollQueries (versionID : String) (trace : List Event)
    (h : ∀ e ∈ trace, e.isChunkEffect versionID) : pollQueries trace = 0 := by
  unfold pollQueries
  rw [List.length_eq_zero, List.filter_eq_nil_iff]
  intro c hc
  rw [List.mem_filterMap] at hc
  obtain ⟨e, he, hec⟩ := hc
  have := h e he
  cases e <;> simp [Event.isChunkEffect, Event.remoteCall] at this hec
  all_goals subst hec; simp

theorem pollLoop_effects (w : World) (versionID : String) :
    ∀ (fuel j t : Nat),
      uploadCalls (pollLoop w versionID fuel j t).trace = [] ∧
      (∀ msg, (pollLoop w versionID fuel j t).outcome ≠ .error msg) ∧
      (∀ msg, (pollLoop w versionID fuel j t).outcome ≠ .panic msg) ∧
      (0 < fuel → 0 < pollQueries (pollLoop w versionID fuel j t).trace) ∧
      (∀ e ∈ (pollLoop w versionID fuel j t).trace, ∀ v, e.versionID = some v →
        v = some versionID) := by
  intro fuel
  induction fuel with
  | zero =>
    intro j t
    simp [pollLoop, uploadCalls]
  | succ f ih =>
    intro j t
    obtain ⟨h1, h2, h3, _, h5⟩ := ih (j + 1) (t + 3)
    unfold pollLoop
    split
    · simp [uploadCalls, pollQueries, Event.remoteCall, Event.versionID]
    · split
      · refine ⟨?_, ?_, ?_, ?_, ?_⟩
        · simp only [Run.after, uploadCalls_append, h1]
          simp [uploadCalls, Event.remoteCall]
        · exact h2
        · exact h3
        · intro _
          simp only [Run.after, pollQueries_append]
          simp [pollQueries, Event.remoteCall]
        · intro e he v hv
          simp only [Run.after, List.mem_append] at he
          rcases he with he | he
          · simp at he
            rcases he with rfl | rfl | rfl <;> simp [Event.versionID] at hv
            exact hv.symm
          · exact h5 e he v hv
      · split <;> simp [uploadCalls, pollQueries, Event.remoteCall, Event.versionID]

/-- The chunk loop does not depend on the cancellation context: replacing the context by any
other leaves every iteration, and so the whole loop, unchanged. -/
theorem uploadLoop_ignores_context (w : World) (done : Nat → Bool) (versionID : String)
    (size : Int) :
    ∀ (remaining i : Nat),
      uploadLoop { w with ctxDone := done } versionID size remaining i =
        uploadLoop w versionID size remaining i := by
  intro remaining
  induction remaining with
  | zero => intro i; rfl
  | succ r ih =>
    intro i
    simp only [uploadLoop, ih]
    rfl

theorem finalizeAndPoll_ok (w : World) (versionID changelog : String)
    (versionStability : VersionStabilities) (fuel t : Nat) (success : Bool)
    (h : withContext w (t + 1) w.finalizeCreateVersion = .ok success) :
    finalizeAndPoll w versionID changelog versionStability fuel t =
      Run.after (finalizeEvents w versionID changelog versionStability success)
        (pollLoop w versionID fuel 0
          (t + (finalizeEvents w versionID changelog versionStability success).length)) := by
  unfold finalizeAndPoll
  simp only [h]
  cases success <;> simp [finalizeEvents]

theorem finalizeAndPoll_error (w : World) (versionID changelog : String)
    (versionStability : VersionStabilities) (fuel t : Nat) (e : String)
    (h : withContext w (t + 1) w.finalizeCreateVersion = .error e) :
    finalizeAndPoll w versionID changelog versionStability fuel t =
      ⟨[.log "finalizing uploaded version",
        .finalizeCreateVersion w.modID versionID changelog versionStability], .error e⟩ := by
  unfold finalizeAndPoll
  simp only [h]

theorem uploadCalls_finalizeEvents (w : World) (versionID changelog : String)
    (versionStability : VersionStabilities) (success : Bool) :
    uploadCalls (finalizeEvents w versionID changelog versionStability success) = [.finalize] := by
  cases success <;> simp [finalizeEvents, uploadCalls, Event.remoteCall]

theorem uploadCalls_finalizeAndPoll (w : World) (versionID changelog : String)
    (versionStability : VersionStabilities) (fuel t : Nat) :
    uploadCalls (finalizeAndPoll w versionID changelog versionStability fuel t).trace =
      [.finalize] := by
  cases h : withContext w (t + 1) w.finalizeCreateVersion with
  | error e =>
    rw [finalizeAndPoll_error _ _ _ _ _ _ _ h]
    simp [uploadCalls, Event.remoteCall]
  | ok success =>
    rw [finalizeAndPoll_ok _ _ _ _ _ _ _ h]
    simp only [Run.after, uploadCalls_append, uploadCalls_finalizeEvents,
      (pollLoop_effects w versionID fuel 0 _).1]
    rfl

theorem uploadCalls_startEvents (w : World) : uploadCalls (startEvents w) = [] := by
  simp [uploadCalls, startEvents, Event.remoteCall]

theorem sleeps_waitingRounds (w : World) (versionID : String) (m : Nat) :
    sleeps (waitingRounds w versionID m) = List.replicate m 10 := by
  induction m with
  | zero => rfl
  | succ m ih =>
    simp only [waitingRounds, sleeps_append, ih, List.replicate_succ]
    rfl

theorem pollQueries_waitingRounds (w : World) (versionID : String) (m : Nat) :
    pollQueries (waitingRounds w versionID m) = m := by
  induction m with
  | zero => rfl
  | succ m ih =>
    simp only [waitingRounds, pollQueries_append, ih]
    simp [pollQueries, Event.remoteCall]
    omega

theorem sessionVerdict_lastRound (w : World) (versionID : String) (verdict : Verdict)
    (head : List Event) :
    sessionVerdict (head ++ lastRound w versionID verdict) = some verdict := by
  unfold sessionVerdict lastRound
  rw [List.getLast?_append]
  cases verdict <;> simp [Verdict.message]

/-! ## The claims on runs -/

/-- C3: the command passes its initial checks exactly when the chunk size is at least
1,000,000 and the stability string is "alpha", "beta" or "release", which select the enum
values Alpha, Beta and Release; on every other configuration it returns an error having
performed no effect at all, so before any file access and any network call; and when the
checks pass the first effect is the `os.Stat` of the file. -/
theorem validation_gate (w : World) (fuel : Nat) :
    (∀ v, validate w.chunkSize w.stability = .ok v ↔
      1000000 ≤ w.chunkSize ∧
        ((w.stability = "alpha" ∧ v = .alpha) ∨ (w.stability = "beta" ∧ v = .beta) ∨
          (w.stability = "release" ∧ v = .release))) ∧
    (¬ (1000000 ≤ w.chunkSize ∧
        (w.stability = "alpha" ∨ w.stability = "beta" ∨ w.stability = "release")) →
      (runE w fuel).trace = [] ∧ ∃ msg, (runE w fuel).outcome = .error msg) ∧
    ((1000000 ≤ w.chunkSize ∧
        (w.stability = "alpha" ∨ w.stability = "beta" ∨ w.stability = "release")) →
      (runE w fuel).trace.head? = some (.stat w.filePath)) := by
  have hne1 : ("beta" : String) ≠ "alpha" := by decide
  have hne2 : ("release" : String) ≠ "alpha" := by decide
  have hne3 : ("release" : String) ≠ "beta" := by decide
  refine ⟨?_, ?_, ?_⟩
  · intro v
    unfold validate
    by_cases hc : w.chunkSize < 1000000
    · simp only [hc, if_true]
      constructor
      · intro h; cases h
      · intro h; omega
    · simp only [hc, if_false]
      have hc2 : 1000000 ≤ w.chunkSize := by omega
      by_cases ha : w.stability = "alpha"
      · simp [ha, hc2]
        constructor <;> intro h <;> exact h.symm
      · by_cases hb : w.stability = "beta"
        · simp [hb, hc2, hne1]
          constructor <;> intro h <;> exact h.symm
        · by_cases hr : w.stability = "release"
          · simp [hr, hc2, hne2, hne3]
            constructor <;> intro h <;> exact h.symm
          · simp [ha, hb, hr]
  · intro h
    unfold runE validate
    by_cases hc : w.chunkSize < 1000000
    · simp [hc]
    · have hc2 : 1000000 ≤ w.chunkSize := by omega
      have hs : ¬ (w.stability = "alpha" ∨ w.stability = "beta" ∨ w.stability = "release") :=
        fun hs => h ⟨hc2, hs⟩
      simp only [not_or] at hs
      simp [hc, hs.1, hs.2.1, hs.2.2]
  · intro ⟨hc, hs⟩
    have hc2 : ¬ w.chunkSize < 1000000 := by omega
    have hv : ∃ v, validate w.chunkSize w.stability = .ok v := by
      unfold validate
      rcases hs with hs | hs | hs <;> simp [hc2, hs, hne1, hne2, hne3]
    obtain ⟨v, hv⟩ := hv
    unfold runE
    simp only [hv]
    cases w.stat with
    | error e => rfl
    | ok info =>
      cases w.initCLI with
      | error e => rfl
      | ok u =>
        by_cases hd : info.isDir = true
        · simp [hd]
        · simp only [hd, Bool.false_eq_true, if_false]
          unfold createAndUpload
          cases withContext w 3 w.createVersion <;> rfl

/-- The two rejected configurations of the specification: a chunk size of 999,999 and the
stability "nightly" both end the command with an error and no effect. -/
theorem validation_examples :
    (runE { sampleWorld with chunkSize := 999999 } 5).trace = [] ∧
      (runE { sampleWorld with chunkSize := 999999 } 5).outcome =
        .error "chunk size cannot be smaller than 1MB" ∧
      (runE { sampleWorld with stability := "nightly" } 5).trace = [] ∧
      (runE { sampleWorld with stability := "nightly" } 5).outcome =
        .error "invalid version stability: nightly" := by
  refine ⟨rfl, by decide, rfl, by decide⟩

/-- C4: in a run that reaches the chunk loop with `n` chunks whose file operations succeed,
the chunk requests carry the parts 1, 2, ..., in this order and one at a time.  If every
send returns, the calls are the parts 1..n followed by the finalize call; if send `k+1` is
the first to fail, the calls are the parts 1..k+1 and nothing else (no later chunk, no
finalize, no state query), and the command returns the transport error. -/
theorem chunk_sends_in_order (w : World) (fuel : Nat) (versionStability : VersionStabilities)
    (info : FileInfo) (versionID : String)
    (hval : validate w.chunkSize w.stability = .ok versionStability)
    (hstat : w.stat = .ok info) (hcli : w.initCLI = .ok ()) (hdir : info.isDir = false)
    (hcreate : withContext w 3 w.createVersion = .ok versionID)
    (hready : ∀ i, i < chunkCount info.size w.chunkSize → chunkReady w info.size i = true) :
    ((∀ i, i < chunkCount info.size w.chunkSize → w.clientDo i = .ok ()) →
      uploadCalls (runE w fuel).trace =
        (List.range (chunkCount info.size w.chunkSize)).map
          (fun i => RemoteCall.uploadPart (some ((i : Int) + 1))) ++ [.finalize]) ∧
    (∀ k e, k < chunkCount info.size w.chunkSize → (∀ i, i < k → w.clientDo i = .ok ()) →
      w.clientDo k = .error e →
      uploadCalls (runE w fuel).trace =
        (List.range (k + 1)).map (fun i => RemoteCall.uploadPart (some ((i : Int) + 1))) ∧
      pollQueries (runE w fuel).trace = 0 ∧
      (runE w fuel).outcome = .error ("failed to execute request: " ++ e)) := by
  rw [runE_started w fuel versionStability info versionID hval hstat hcli hdir hcreate]
  constructor
  · intro hsend
    obtain ⟨h1, h2, _⟩ := uploadLoop_ok w versionID info.size
      (chunkCount info.size w.chunkSize) 0
      (fun k _ hk => ⟨hready k (by omega), hsend k (by omega)⟩)
    simp only [Run.after, Run.seq, h1, uploadCalls_append, uploadCalls_startEvents, h2,
      uploadCalls_finalizeAndPoll, List.nil_append, List.range_eq_range']
  · intro k e hk hbefore hfail
    obtain ⟨h1, h2, h3⟩ := uploadLoop_fail w versionID info.size e
      (chunkCount info.size w.chunkSize) 0 k (Nat.zero_le k) (by omega)
      (fun j _ hj => ⟨hready j (by omega), hbefore j hj⟩) (hready k hk) hfail
    simp only [Run.after, Run.seq, h1, uploadCalls_append, uploadCalls_startEvents, h2,
      List.nil_append, List.range_eq_range', pollQueries_append, h3, Nat.sub_zero]
    refine ⟨trivial, ?_, trivial⟩
    simp [pollQueries, startEvents, Event.remoteCall]

/-- Witness of C4: three chunks and no failure give the sends 1, 2, 3 and then finalize;
three chunks with the second send failing give the sends 1, 2 only and an error. -/
theorem chunk_sends_in_order_witness :
    uploadCalls (runE sampleWorld 5).trace =
        [.uploadPart (some 1), .uploadPart (some 2), .uploadPart (some 3), .finalize] ∧
      (uploadCalls (runE secondSendFails 5).trace =
          [.uploadPart (some 1), .uploadPart (some 2)] ∧
        pollQueries (runE secondSendFails 5).trace = 0 ∧
        (runE secondSendFails 5).outcome =
          .error ("failed to execute request: " ++ "connection refused")) :=
  ⟨(chunk_sends_in_order sampleWorld 5 .release ⟨25000000, false⟩ "v1" (by decide) rfl rfl rfl
      (by decide) (by decide)).1 (by decide),
    (chunk_sends_in_order secondSendFails 5 .release ⟨25000000, false⟩ "v1" (by decide) rfl rfl
      rfl (by decide) (by decide)).2 1 "connection refused" (by decide) (by decide) rfl⟩

/-- C5: in a run without cancellation whose chunk loop completed and whose finalize call
returned, let the state queries answer "no version yet" `m` times and then give an answer
that ends the loop (a present version, or an error).  With fuel for `m + 1` iterations the
command returns nil; after the finalize effects it sleeps 1 second, then performs `m`
rounds of one query followed by a 10 second sleep and one last query, that is `m + 1`
queries and `m` sleeps of 10 seconds; and the last message it logs is the one of
AUTO_APPROVED for an auto-approved version, of MANUAL_REVIEW for another present version,
and of UNKNOWN for a query error. -/
theorem poll_until_answer (w : World) (fuel : Nat) (versionStability : VersionStabilities)
    (info : FileInfo) (versionID : String)
    (hval : validate w.chunkSize w.stability = .ok versionStability)
    (hstat : w.stat = .ok info) (hcli : w.initCLI = .ok ()) (hdir : info.isDir = false)
    (hcreate : w.createVersion = .ok versionID) (hctx : ∀ t, w.ctxDone t = false)
    (hup : (uploadLoop w versionID info.size (chunkCount info.size w.chunkSize) 0).outcome = .ok)
    (success : Bool) (hfin : w.finalizeCreateVersion = .ok success)
    (m : Nat) (hfuel : m < fuel)
    (hwait : ∀ k, k < m → answerVerdict (w.checkVersionUploadState k) = none)
    (verdict : Verdict) (hlast : answerVerdict (w.checkVersionUploadState m) = some verdict) :
    (runE w fuel).outcome = .ok ∧
    (runE w fuel).trace =
      startEvents w ++
        (uploadLoop w versionID info.size (chunkCount info.size w.chunkSize) 0).trace ++
        finalizeEvents w versionID (" ".intercalate w.changelogArgs) versionStability success ++
        waitingRounds w versionID m ++ lastRound w versionID verdict ∧
    sleeps (runE w fuel).trace = 1 :: List.replicate m 10 ∧
    pollQueries (runE w fuel).trace = m + 1 ∧
    sessionVerdict (runE w fuel).trace = some verdict := by
  have hcreate2 : withContext w 3 w.createVersion = .ok versionID := by
    simp [withContext, hctx, hcreate]
  have hfin2 : ∀ t, withContext w (t + 1) w.finalizeCreateVersion = .ok success := by
    intro t; simp [withContext, hctx, hfin]
  have hpoll := fun t => pollLoop_script w versionID hctx verdict m fuel 0 t hfuel
    (fun k hk => by simpa using hwait k hk) (by simpa using hlast)
  have hrun : (runE w fuel).outcome = .ok ∧ (runE w fuel).trace =
      startEvents w ++
        (uploadLoop w versionID info.size (chunkCount info.size w.chunkSize) 0).trace ++
        finalizeEvents w versionID (" ".intercalate w.changelogArgs) versionStability success ++
        waitingRounds w versionID m ++ lastRound w versionID verdict := by
    rw [runE_started w fuel versionStability info versionID hval hstat hcli hdir hcreate2]
    simp only [Run.after, Run.seq, hup, finalizeAndPoll_ok _ _ _ _ _ _ _ (hfin2 _), hpoll,
      List.append_assoc]
    exact ⟨trivial, trivial⟩
  have hchunk := uploadLoop_effects w versionID info.size (chunkCount info.size w.chunkSize) 0
  refine ⟨hrun.1, hrun.2, ?_, ?_, ?_⟩
  · rw [hrun.2]
    simp only [sleeps_append, chunkEffects_sleeps versionID _ hchunk, sleeps_waitingRounds]
    cases success <;> simp [sleeps, startEvents, finalizeEvents, lastRound]
  · rw [hrun.2]
    simp only [pollQueries_append, chunkEffects_pollQueries versionID _ hchunk,
      pollQueries_waitingRounds]
    cases success <;> simp [pollQueries, startEvents, finalizeEvents, lastRound, Event.remoteCall]
  · rw [hrun.2]
    exact sessionVerdict_lastRound w versionID verdict _

/-- Witness of C5: "no version yet", "no version yet", "version present, auto-approved":
the command returns nil after the sleeps of 1, 10 and 10 seconds and three queries, and
reports AUTO_APPROVED. -/
theorem poll_until_answer_witness :
    (runE sampleWorld 5).outcome = .ok ∧
    sleeps (runE sampleWorld 5).trace = [1, 10, 10] ∧
    pollQueries (runE sampleWorld 5).trace = 3 ∧
    sessionVerdict (runE sampleWorld 5).trace = some .autoApproved :=
  have h := poll_until_answer sampleWorld 5 .release ⟨25000000, false⟩ "v1" (by decide) rfl rfl
    rfl rfl (fun _ => rfl) (by decide) true rfl 2 (by decide) (by decide) .autoApproved
    (by decide)
  ⟨h.1, h.2.2.1, h.2.2.2.1, h.2.2.2.2⟩

/-- C6: in a run whose chunk loop completed, a finalize call that returns without error
leads to the polling phase whatever its success flag is: the run continues with the
1 second sleep and the poll loop, a false flag adds one log line only, and the command does
not return an error; a finalize call that returns an error makes the command return that
error without any state query. -/
theorem finalize_decides (w : World) (fuel : Nat) (versionStability : VersionStabilities)
    (info : FileInfo) (versionID : String)
    (hval : validate w.chunkSize w.stability = .ok versionStability)
    (hstat : w.stat = .ok info) (hcli : w.initCLI = .ok ()) (hdir : info.isDir = false)
    (hcreate : withContext w 3 w.createVersion = .ok versionID)
    (hup : (uploadLoop w versionID info.size (chunkCount info.size w.chunkSize) 0).outcome = .ok) :
    (∀ success,
      withContext w (5 + (uploadLoop w versionID info.size
        (chunkCount info.size w.chunkSize) 0).trace.length + 1) w.finalizeCreateVersion
          = .ok success →
      (∃ t, (runE w fuel).trace =
          startEvents w ++
            (uploadLoop w versionID info.size (chunkCount info.size w.chunkSize) 0).trace ++
            finalizeEvents w versionID (" ".intercalate w.changelogArgs) versionStability
              success ++
            (pollLoop w versionID fuel 0 t).trace ∧
        (runE w fuel).outcome = (pollLoop w versionID fuel 0 t).outcome) ∧
      (∀ msg, (runE w fuel).outcome ≠ .error msg) ∧
      (0 < fuel → 0 < pollQueries (runE w fuel).trace)) ∧
    (∀ e,
      withContext w (5 + (uploadLoop w versionID info.size
        (chunkCount info.size w.chunkSize) 0).trace.length + 1) w.finalizeCreateVersion
          = .error e →
      (runE w fuel).outcome = .error e ∧ pollQueries (runE w fuel).trace = 0) := by
  have hchunk := uploadLoop_effects w versionID info.size (chunkCount info.size w.chunkSize) 0
  rw [runE_started w fuel versionStability info versionID hval hstat hcli hdir hcreate]
  constructor
  · intro success hfin
    simp only [Run.after, Run.seq, hup, finalizeAndPoll_ok _ _ _ _ _ _ _ hfin]
    obtain ⟨_, h2, _, h4, _⟩ := pollLoop_effects w versionID fuel 0
      (5 + (uploadLoop w versionID info.size (chunkCount info.size w.chunkSize) 0).trace.length +
        (finalizeEvents w versionID (" ".intercalate w.changelogArgs) versionStability
          success).length)
    refine ⟨⟨_, ?_, rfl⟩, h2, ?_⟩
    · simp only [List.append_assoc]
    · intro hf
      have := h4 hf
      simp only [pollQueries_append]
      omega
  · intro e hfin
    simp only [Run.after, Run.seq, hup, finalizeAndPoll_error _ _ _ _ _ _ _ hfin,
      pollQueries_append, chunkEffects_pollQueries versionID _ hchunk]
    refine ⟨trivial, ?_⟩
    simp [pollQueries, startEvents, Event.remoteCall]

/-- Witness of C6: a finalize call that reports `success = false` is followed by the poll
phase, and the command does not return an error. -/
theorem finalize_decides_witness :
    (∀ msg, (runE finalizeUnsuccessful 5).outcome ≠ .error msg) ∧
      0 < pollQueries (runE finalizeUnsuccessful 5).trace :=
  have h := (finalize_decides finalizeUnsuccessful 5 .release ⟨25000000, false⟩ "v1" (by decide)
    rfl rfl rfl (by decide) (by decide)).1 false (by decide)
  ⟨h.2.1, h.2.2 (by decide)⟩

theorem carried_of_forall (trace : List Event) (id : String)
    (h : ∀ e ∈ trace, ∀ v, e.versionID = some v → v = some id) :
    carriedVersionIDs trace = List.replicate (carriedVersionIDs trace).length (some id) := by
  rw [List.eq_replicate_iff]
  refine ⟨rfl, ?_⟩
  intro v hv
  unfold carriedVersionIDs at hv
  rw [List.mem_filterMap] at hv
  obtain ⟨e, he, hev⟩ := hv
  exact h e he v hev

theorem finalizeAndPoll_versionID (w : World) (versionID changelog : String)
    (versionStability : VersionStabilities) (fuel t : Nat) :
    ∀ e ∈ (finalizeAndPoll w versionID changelog versionStability fuel t).trace,
      ∀ v, e.versionID = some v → v = some versionID := by
  intro e he v hv
  cases h : withContext w (t + 1) w.finalizeCreateVersion with
  | error err =>
    rw [finalizeAndPoll_error _ _ _ _ _ _ _ h] at he
    simp at he
    rcases he with rfl | rfl <;> simp [Event.versionID] at hv
    exact hv.symm
  | ok success =>
    rw [finalizeAndPoll_ok _ _ _ _ _ _ _ h] at he
    simp only [Run.after, List.mem_append] at he
    rcases he with he | he
    · cases success <;> simp [finalizeEvents] at he
      · rcases he with rfl | rfl | rfl | rfl <;> simp [Event.versionID] at hv
        exact hv.symm
      · rcases he with rfl | rfl | rfl <;> simp [Event.versionID] at hv
        exact hv.symm
    · exact (pollLoop_effects w versionID fuel 0 _).2.2.2.2 e he v hv

theorem runE_versionID (w : World) (fuel : Nat) (id : String)
    (hcreate : w.createVersion = .ok id) :
    ∀ e ∈ (runE w fuel).trace, ∀ v, e.versionID = some v → v = some id := by
  intro e he v hv
  unfold runE at he
  cases hval : validate w.chunkSize w.stability with
  | error err => simp [hval] at he
  | ok vs =>
    cases hstat : w.stat with
    | error err =>
      simp [hval, hstat] at he
      subst he; simp [Event.versionID] at hv
    | ok info =>
      cases hcli : w.initCLI with
      | error err =>
        simp [hval, hstat, hcli] at he
        rcases he with rfl | rfl <;> simp [Event.versionID] at hv
      | ok u =>
        by_cases hdir : info.isDir = true
        · simp [hval, hstat, hcli, hdir] at he
          rcases he with rfl | rfl <;> simp [Event.versionID] at hv
        · simp only [hval, hstat, hcli, hdir, Bool.false_eq_true, if_false] at he
          unfold createAndUpload at he
          by_cases hctx : w.ctxDone 3 = true
          · simp [withContext, hctx] at he
            rcases he with rfl | rfl | rfl | rfl <;> simp [Event.versionID] at hv
          · simp only [withContext, hctx, Bool.false_eq_true, if_false, hcreate, Run.after,
              Run.seq] at he
            rw [List.mem_append] at he
            rcases he with he | he
            · simp at he
              rcases he with rfl | rfl | rfl | rfl | rfl <;> simp [Event.versionID] at hv
            · have hchunk := uploadLoop_effects w id info.size
                (chunkCount info.size w.chunkSize) 0
              split at he
              · rw [List.mem_append] at he
                rcases he with he | he
                · exact chunkEffect_versionID id e (hchunk e he) v hv
                · exact finalizeAndPoll_versionID _ _ _ _ _ _ e he v hv
              · exact chunkEffect_versionID id e (hchunk e he) v hv

/-- C9, as the code has it: when create-version returns the id `id`, every chunk request,
the finalize call and every state query of the run carry exactly `id`; so the version id is
the same in all of them, and it is empty in none of them when `id` is not empty. -/
theorem versionID_is_created_id (w : World) (fuel : Nat) (id : String)
    (hcreate : w.createVersion = .ok id) :
    carriedVersionIDs (runE w fuel).trace =
        List.replicate (carriedVersionIDs (runE w fuel).trace).length (some id) ∧
      (id ≠ "" → some "" ∉ carriedVersionIDs (runE w fuel).trace) := by
  have h := carried_of_forall _ id (runE_versionID w fuel id hcreate)
  refine ⟨h, ?_⟩
  intro hid hmem
  rw [h, List.mem_replicate] at hmem
  exact hid (Option.some.inj hmem.2).symm

/-- Witness of C9 as amended: the sample run carries "v1" in its three chunk requests, its
finalize call and its three state queries. -/
theorem versionID_is_created_id_witness :
    carriedVersionIDs (runE sampleWorld 5).trace =
        List.replicate (carriedVersionIDs (runE sampleWorld 5).trace).length (some "v1") ∧
      (("v1" : String) ≠ "" → some "" ∉ carriedVersionIDs (runE sampleWorld 5).trace) :=
  versionID_is_created_id sampleWorld 5 "v1" rfl

set_option maxRecDepth 100000 in
/-- C9 fails as stated: create-version may return without error and with an empty id; the
command then runs to the end and carries the empty id in its three chunk requests, its
finalize call and its three state queries. -/
theorem empty_versionID_is_used :
    emptyIdWorld.createVersion = .ok "" ∧ (runE emptyIdWorld 5).outcome = .ok ∧
      carriedVersionIDs (runE emptyIdWorld 5).trace = List.replicate 7 (some "") := by
  decide

set_option maxRecDepth 100000 in
/-- C8 fails as stated: given a context that is signaled after five effects, that is once
the version id has been received and before the first chunk is started, the command still
sends the chunk requests of parts 1, 2 and 3; only the finalize call, which takes the
context, fails, and no state query follows. -/
theorem cancelled_context_still_uploads :
    cancelledWorld.ctxDone 5 = true ∧
      (runE cancelledWorld 5).trace.take 5 = startEvents cancelledWorld ∧
      postedParts ((runE cancelledWorld 5).trace.drop 5) = [some 1, some 2, some 3] ∧
      pollQueries (runE cancelledWorld 5).trace = 0 ∧
      (runE cancelledWorld 5).outcome = .error "context canceled" := by
  refine ⟨by decide, rfl, by decide, by decide, by decide⟩

theorem uploadChunk_request (w : World) (versionID : String) (size : Int) (i : Nat) :
    ∀ e ∈ (uploadChunk w versionID size i).trace, ∀ req, e = .clientDo req →
      ∃ data, w.readFile i = .ok data ∧
        req = chunkRequest w versionID i
          ⟨(bufferSize size w.chunkSize (chunkOffset i w.chunkSize)).toNat, data⟩ := by
  unfold uploadChunk
  cases w.openFile i <;> cases w.seek i <;> cases w.readFile i <;> cases w.clientDo i <;>
    by_cases h1 : bufferSize size w.chunkSize (chunkOffset i w.chunkSize) < 0 <;>
    by_cases h2 : w.newRequestOk = true <;>
    simp [h1, h2]

/-- C7: the request an iteration of the chunk loop sends is the envelope of the bytes it
read, and reading that envelope back gives: exactly three parts; a form field "operations"
whose document has the query `uploadVersionPartGQL` and the variables modId = modID,
versionId = the version id, part = i + 1 and file = null; a form field "map" whose document
maps "0" to the one-element array ["variables.file"]; and a file part "0" whose file name
is the base name of the source path and whose content is the chunk.  A body is identified
with the list of its parts and a marshalled document with its value. -/
theorem envelope_readback (w : World) (versionID : String) (size : Int) (i : Nat)
    (chunk : Chunk) :
    (∀ e ∈ (uploadChunk w versionID size i).trace, ∀ req, e = .clientDo req →
      ∃ data, w.readFile i = .ok data ∧
        req = chunkRequest w versionID i
          ⟨(bufferSize size w.chunkSize (chunkOffset i w.chunkSize)).toNat, data⟩) ∧
    (chunkRequest w versionID i chunk).body.length = 3 ∧
    (∃ doc, formPart (chunkRequest w versionID i chunk).body "operations" =
        some ⟨"operations", none, .document doc⟩ ∧
      doc.field "query" = some (.string uploadVersionPartGQL) ∧
      (∃ vars, doc.field "variables" = some vars ∧
        vars.field "modId" = some (.string w.modID) ∧
        vars.field "versionId" = some (.string versionID) ∧
        vars.field "part" = some (.number ((i : Int) + 1)) ∧
        vars.field "file" = some .null)) ∧
    (∃ doc, formPart (chunkRequest w versionID i chunk).body "map" =
        some ⟨"map", none, .document doc⟩ ∧
      doc.field "0" = some (.array [.string "variables.file"])) ∧
    formPart (chunkRequest w versionID i chunk).body "0" =
      some ⟨"0", some (w.base w.filePath), .octets chunk⟩ :=
  ⟨uploadChunk_request w versionID size i, rfl, ⟨_, rfl, rfl, _, rfl, rfl, rfl, rfl, rfl⟩,
    ⟨_, rfl, rfl⟩, rfl⟩

theorem uploadCalls_seq_finalizeAndPoll (upload : Run) (w : World) (versionID changelog : String)
    (versionStability : VersionStabilities) (fuel t : Nat) :
    uploadCalls (upload.seq
        (finalizeAndPoll w versionID changelog versionStability fuel t)).trace =
      uploadCalls upload.trace ++ (if upload.outcome = .ok then [.finalize] else []) := by
  unfold Run.seq
  cases h : upload.outcome <;> simp [uploadCalls_append, uploadCalls_finalizeAndPoll]

theorem runE_uploadCalls_ignore_context (w : World) (done : Nat → Bool) (fuel : Nat) :
    uploadCalls
        (runE { w with ctxDone := fun t => if t ≤ 3 then w.ctxDone t else done t } fuel).trace =
      uploadCalls (runE w fuel).trace := by
  have hloop := uploadLoop_ignores_context w (fun t => if t ≤ 3 then w.ctxDone t else done t)
  generalize hw : ({ w with ctxDone := fun t => if t ≤ 3 then w.ctxDone t else done t } : World)
    = w2 at hloop ⊢
  have h1 : w2.chunkSize = w.chunkSize := by rw [← hw]
  have h2 : w2.stability = w.stability := by rw [← hw]
  have h3 : w2.stat = w.stat := by rw [← hw]
  have h4 : w2.initCLI = w.initCLI := by rw [← hw]
  have h5 : w2.createVersion = w.createVersion := by rw [← hw]
  have h6 : w2.ctxDone 3 = w.ctxDone 3 := by rw [← hw]; simp
  have h7 : w2.filePath = w.filePath := by rw [← hw]
  have h8 : w2.modID = w.modID := by rw [← hw]
  have h9 : w2.changelogArgs = w.changelogArgs := by rw [← hw]
  unfold runE
  rw [h1, h2, h3, h4, h7, h9]
  cases validate w.chunkSize w.stability with
  | error e => rfl
  | ok vs =>
    cases w.stat with
    | error e => rfl
    | ok info =>
      cases w.initCLI with
      | error e => rfl
      | ok u =>
        by_cases hdir : info.isDir = true
        · simp [hdir]
        · simp only [hdir, Bool.false_eq_true, if_false]
          unfold createAndUpload
          simp only [withContext, h1, h5, h6, h7, h8]
          by_cases hctx : w.ctxDone 3 = true
          · simp [hctx]
          · simp only [hctx, Bool.false_eq_true, if_false]
            cases w.createVersion with
            | error e => rfl
            | ok versionID =>
              simp only [Run.after, uploadCalls_append, uploadCalls_seq_finalizeAndPoll, hloop]

/-- C8, as the code has it: the command has no abort on cancellation of its own.  Started
by `Execute` it has the background context, and then no call is affected by the context.
Whatever a context does once the create-version call has been made, the command makes the
same chunk uploads and the same finalize call, in the same order: a signaled context does
not stop the chunk uploads.  A context acts only through the calls that are given it: a
finalize call made once the context is signaled fails with the context error, which the
command returns without any state query; a state query made once the context is signaled
fails and ends the poll loop there, the command returning nil. -/
theorem context_reaches_only_client_calls (w : World) (done : Nat → Bool)
    (versionID changelog : String) (versionStability : VersionStabilities)
    (fuel j t : Nat) :
    (w.ctxDone = backgroundContext →
      withContext w 3 w.createVersion = w.createVersion ∧
      withContext w t w.finalizeCreateVersion = w.finalizeCreateVersion ∧
      withContext w t (w.checkVersionUploadState j) = w.checkVersionUploadState j) ∧
    uploadCalls
        (runE { w with ctxDone := fun t => if t ≤ 3 then w.ctxDone t else done t } fuel).trace =
      uploadCalls (runE w fuel).trace ∧
    (w.ctxDone (t + 1) = true →
      finalizeAndPoll w versionID changelog versionStability fuel t =
        ⟨[.log "finalizing uploaded version",
          .finalizeCreateVersion w.modID versionID changelog versionStability],
          .error "context canceled"⟩) ∧
    (w.ctxDone (t + 1) = true →
      pollLoop w versionID (fuel + 1) j t =
        ⟨[.log "checking version upload state", .checkVersionUploadState w.modID versionID,
          .log "failed to upload mod"], .ok⟩) := by
  refine ⟨?_, runE_uploadCalls_ignore_context w done fuel, ?_, ?_⟩
  · intro h
    simp [withContext, h, backgroundContext]
  · intro h
    exact finalizeAndPoll_error w versionID changelog versionStability fuel t "context canceled"
      (by simp [withContext, h])
  · intro h
    unfold pollLoop
    simp [withContext, h]

end Smr
